import Mathlib

/-
  Verification of the PlantSpace real-time relay and messaging layer.

  Shallow embedding of:
  - the Socket.IO relay (`setupSocketHandlers` in the socket service):
    handshake authentication middleware, personal/conversation room
    enrollment, the `send_message`, `join_conversation`, `typing_start`
    and `typing_stop` handlers;
  - the REST message controller (`messageController.ts`): `sendMessage`,
    `deleteMessage`, `getMessages`;
  - the rate-limiting middleware (`createRateLimit`);
  - the store's `messages` table as declared by the schema embedded in the
    backend (`DATABASE_SCHEMA` in the supabase service file).

  Machine integers of the source (JS numbers used as integral timestamps
  and ids) are modelled as `Int`/`Nat`; external store calls are modelled
  by explicit state passing over a `Store` value; fallible calls return
  `Except`/`Option`.
-/

namespace Plantspace

/-- JS `Array.prototype.sort` default comparator on strings: lexicographic
by numeric code unit.  `[a, b].sort()` keeps `[a, b]` exactly when this
comparison does not place `b` strictly before `a`. -/
def jsStrLe : List Char → List Char → Bool
  | [], _ => true
  | _ :: _, [] => false
  | a :: as, b :: bs =>
    if a.toNat < b.toNat then true
    else if b.toNat < a.toNat then false
    else jsStrLe as bs

/-- `[a, b].sort()` for a two-element string array under the default
comparator. -/
def sortPair (a b : String) : List String :=
  if jsStrLe a.data b.data then [a, b] else [b, a]

/-- `[socket.userId, otherUserId].sort().join(':')` — the canonical
conversation key computed in both the `join_conversation` and the
`send_message` handlers. -/
def conversationId (a b : String) : String :=
  String.intercalate ":" (sortPair a b)

/-- Room name used by `join_conversation`:
`socket.join(\x7bconversation:$\x7bconversationId\x7d\x7d)`. -/
def joinConversationRoom (userId otherUserId : String) : String :=
  "conversation:" ++ conversationId userId otherUserId

/-- Room name targeted by the `send_message` broadcast:
`io.to(\x7bconversation:$\x7bconversationId\x7d\x7d)`. -/
def sendMessageRoom (userId receiverId : String) : String :=
  "conversation:" ++ conversationId userId receiverId

/-- A row of the `users` table (the columns the message paths select). -/
structure UserRecord where
  id : String
  username : String
  display_name : String
  avatar_url : Option String
  is_verified : Bool
deriving DecidableEq

/-- A row of the `messages` table as declared by the backend-embedded
schema: sender/receiver foreign keys, text, optional image url, creation
time, optional read time.  That schema has no `sender_id != receiver_id`
check constraint. -/
structure MessageRecord where
  id : Nat
  sender_id : String
  receiver_id : String
  text : String
  image_url : Option String
  created_at : Nat
  read_at : Option Nat
deriving DecidableEq

/-- The sender profile fields joined by the relay's insert select:
`sender:sender_id ( id, username, display_name, avatar_url )`. -/
structure SenderProfile where
  id : String
  username : String
  display_name : String
  avatar_url : Option String
deriving DecidableEq

def UserRecord.toSenderProfile (u : UserRecord) : SenderProfile :=
  ⟨u.id, u.username, u.display_name, u.avatar_url⟩

/-- The record returned by the relay's insert-with-select: the persisted
message row together with the resolved sender profile. -/
structure PersistedMessage where
  row : MessageRecord
  sender : SenderProfile
deriving DecidableEq

/-- The slice of the external store the message paths touch. -/
structure Store where
  users : List UserRecord
  messages : List MessageRecord
deriving DecidableEq

def Store.findUser (st : Store) (uid : String) : Option UserRecord :=
  st.users.find? (fun u => u.id == uid)

/-- Insert into `messages` under the backend-embedded schema: the two
user foreign keys must resolve; there is no sender-distinct-from-receiver
check. -/
def storeInsertMessage (st : Store) (row : MessageRecord) : Except String Store :=
  if (st.findUser row.sender_id).isSome && (st.findUser row.receiver_id).isSome then
    .ok { st with messages := st.messages ++ [row] }
  else
    .error "foreign key violation"

/-- The relay's `send_message` store write:
`supabase.from('messages').insert(...).select('*, sender:sender_id (...)').single()`.
Succeeds with the persisted row joined with the sender profile, or fails
(modelling a store error, e.g. a foreign-key violation). -/
def relayInsertMessage (st : Store) (senderId receiverId text : String)
    (imageUrl : Option String) (now mid : Nat) :
    Except String (Store × PersistedMessage) :=
  let row : MessageRecord := ⟨mid, senderId, receiverId, text, imageUrl, now, none⟩
  match st.findUser senderId, st.findUser receiverId with
  | some su, some _ =>
    .ok ({ st with messages := st.messages ++ [row] }, ⟨row, su.toSenderProfile⟩)
  | _, _ => .error "insert failed"

/-- Addressing mode of one relay emit:
`io.to(room).emit` reaches every connection in the room;
`socket.to(room).emit` reaches every connection in the room except the
emitting socket; `socket.emit` reaches only the emitting socket. -/
inductive Target where
  | group (room : String)
  | groupExceptSender (room : String)
  | senderSocket
deriving DecidableEq

/-- Payloads of the relay events the claims concern. -/
inductive Payload where
  | newMessage (m : PersistedMessage)
  | messageNotification (senderId : String) (m : PersistedMessage)
  | messageError (msg : String)
  | userTyping (userId : String) (isTyping : Bool)
deriving DecidableEq

/-- One emitted relay event: addressing mode, event name, payload. -/
structure Emission where
  target : Target
  event : String
  payload : Payload
deriving DecidableEq

/-- An authenticated relay connection: socket id, resolved user identity,
and the Socket.IO rooms it has joined. -/
structure Conn where
  sid : Nat
  userId : String
  rooms : List String
deriving DecidableEq

/-- The `connection` handler's enrollment:
`socket.join(\x7buser:$\x7bsocket.userId\x7d\x7d)` — a fresh authenticated
connection is in exactly its personal room. -/
def connect (sid : Nat) (uid : String) : Conn :=
  ⟨sid, uid, ["user:" ++ uid]⟩

/-- The `join_conversation` handler:
`socket.join(\x7bconversation:$\x7bconversationId\x7d\x7d)`. -/
def joinConversation (c : Conn) (otherUserId : String) : Conn :=
  { c with rooms := c.rooms ++ [joinConversationRoom c.userId otherUserId] }

/-- Whether Socket.IO delivers emission `em` (emitted by the socket with
id `senderSid`) to connection `c`. -/
def deliveredTo (senderSid : Nat) (c : Conn) (em : Emission) : Bool :=
  match em.target with
  | .group room => c.rooms.contains room
  | .groupExceptSender room => c.rooms.contains room && c.sid != senderSid
  | .senderSocket => c.sid == senderSid

/-- The connections of `conns` that receive emission `em`. -/
def recipients (conns : List Conn) (senderSid : Nat) (em : Emission) : List Conn :=
  conns.filter (fun c => deliveredTo senderSid c em)

/-- The `send_message` handler: persist synchronously; on store failure
emit `message_error` back to the sender socket only and stop; on success
emit `new_message` to the conversation room and `message_notification`
to the receiver's personal room. -/
def relaySendMessage (st : Store) (userId receiverId text : String)
    (imageUrl : Option String) (now mid : Nat) : Store × List Emission :=
  match relayInsertMessage st userId receiverId text imageUrl now mid with
  | .error _ =>
    (st, [⟨.senderSocket, "message_error", .messageError "Failed to send message"⟩])
  | .ok (st', m) =>
    (st',
      [⟨.group (sendMessageRoom userId receiverId), "new_message", .newMessage m⟩,
       ⟨.group ("user:" ++ receiverId), "message_notification",
         .messageNotification userId m⟩])

/-- The `typing_start` handler:
`socket.to(\x7buser:$\x7breceiverId\x7d\x7d).emit('user_typing', \x7buserId, isTyping: true\x7d)`. -/
def typingStartEmissions (userId receiverId : String) : List Emission :=
  [⟨.groupExceptSender ("user:" ++ receiverId), "user_typing", .userTyping userId true⟩]

/-- The `typing_stop` handler: as `typing_start` with `isTyping: false`. -/
def typingStopEmissions (userId receiverId : String) : List Emission :=
  [⟨.groupExceptSender ("user:" ++ receiverId), "user_typing", .userTyping userId false⟩]

/-- Outcome classes of `socket.handshake.auth.token` as seen by the
authentication middleware: absent, failing `jwt.verify` (which throws),
or verifying to a subject identifier. -/
inductive HandshakeToken where
  | missing
  | invalid
  | valid (userId : String)
deriving DecidableEq

/-- The Socket.IO authentication middleware (`io.use`): missing token,
failed verification, and a subject that does not resolve to a stored user
all call `next(new Error('Authentication error'))`; otherwise the socket
is tagged with the resolved user id and accepted. -/
def verifyConnection (tok : HandshakeToken) (st : Store) : Except String String :=
  match tok with
  | .missing => .error "Authentication error"
  | .invalid => .error "Authentication error"
  | .valid uid =>
    match st.findUser uid with
    | some _ => .ok uid
    | none => .error "Authentication error"

/-- The claim's rejection condition: credential missing, failing
cryptographic verification, or resolving to a non-existent identity. -/
def badHandshake (tok : HandshakeToken) (st : Store) : Bool :=
  match tok with
  | .missing => true
  | .invalid => true
  | .valid uid => (st.findUser uid).isNone

/-- A connection is created (and auto-joined to its personal room) only
when the middleware accepts the handshake. -/
def acceptConnection (tok : HandshakeToken) (st : Store) (sid : Nat) : Option Conn :=
  match verifyConnection tok st with
  | .ok uid => some (connect sid uid)
  | .error _ => none

/-- Server connection list after one handshake attempt: the connection
enters the broadcast graph only if accepted. -/
def serverAfterHandshake (conns : List Conn) (tok : HandshakeToken) (st : Store)
    (sid : Nat) : List Conn :=
  match acceptConnection tok st sid with
  | some c => conns ++ [c]
  | none => conns

/-- Inbound relay events of the handlers the claims concern.  `sendMsg`
carries the timestamp and row id the store would assign. -/
inductive InboundEvent where
  | joinConv (otherUserId : String)
  | sendMsg (receiverId text : String) (imageUrl : Option String) (now mid : Nat)
  | typingStart (receiverId : String)
  | typingStop (receiverId : String)
deriving DecidableEq

/-- Effect of one inbound event on an authenticated connection: the
handlers registered inside `io.on('connection', ...)`. -/
def handleEvent (st : Store) (c : Conn) : InboundEvent → Store × Conn × List Emission
  | .joinConv o => (st, joinConversation c o, [])
  | .sendMsg r t img now mid =>
    let res := relaySendMessage st c.userId r t img now mid
    (res.1, c, res.2)
  | .typingStart r => (st, c, typingStartEmissions c.userId r)
  | .typingStop r => (st, c, typingStopEmissions c.userId r)

/-- Event dispatch at the server: handlers exist only for sockets that
completed the `connection` handler; an event from a socket id that is not
connected reaches no handler and produces nothing. -/
def dispatchEvent (st : Store) (conns : List Conn) (sid : Nat) (ev : InboundEvent) :
    Store × List Conn × List Emission :=
  match conns.find? (fun c => c.sid == sid) with
  | none => (st, conns, [])
  | some c =>
    let res := handleEvent st c ev
    (res.1, conns.map (fun d => if d.sid == sid then res.2.1 else d), res.2.2)

/-- JS falsiness of an optional string request field: absent, or the
empty string. -/
def jsFalsyStr : Option String → Bool
  | none => true
  | some s => s == ""

/-- Outcomes of the REST message handlers, tagged by HTTP status. -/
inductive RestResult where
  | ok (body : String)
  | createdMessage (m : MessageRecord)
  | messagesPage (page : List MessageRecord) (hasMore : Bool)
  | badRequest (msg : String)
  | unauthorized (msg : String)
  | notFound (msg : String)
  | serverError (msg : String)
deriving DecidableEq

def RestResult.status : RestResult → Nat
  | .ok _ => 200
  | .createdMessage _ => 201
  | .messagesPage _ _ => 200
  | .badRequest _ => 400
  | .unauthorized _ => 401
  | .notFound _ => 404
  | .serverError _ => 500

/-- REST `sendMessage` (message controller): 401 without identity; 400
when `receiverId` is falsy or both `text` and `imageUrl` are falsy; 404
when the receiver id resolves to no user; then insert
`\x7b sender_id: userId, receiver_id: receiverId, text: text || '',
image_url: imageUrl || null \x7d` and answer 201, or 500 on store error.
No comparison of sender and receiver is performed. -/
def sendMessage (st : Store) (userId : Option String) (receiverId : Option String)
    (text : Option String) (imageUrl : Option String) (now mid : Nat) :
    Store × RestResult :=
  match userId with
  | none => (st, .unauthorized "Unauthorized")
  | some uid =>
    if jsFalsyStr receiverId || (jsFalsyStr text && jsFalsyStr imageUrl) then
      (st, .badRequest "Receiver ID and message content are required")
    else
      let rid := receiverId.getD ""
      match st.findUser rid with
      | none => (st, .notFound "Receiver not found")
      | some _ =>
        let row : MessageRecord :=
          ⟨mid, uid, rid, text.getD "", if jsFalsyStr imageUrl then none else imageUrl,
            now, none⟩
        match storeInsertMessage st row with
        | .error _ => (st, .serverError "Failed to send message")
        | .ok st' => (st', .createdMessage row)

/-- REST `deleteMessage`: fetch the row matching both the message id and
`sender_id = userId`; when that single-row fetch fails (row absent or the
requester is not the sender) answer 404 `Message not found or
unauthorized`; otherwise delete by id and answer success. -/
def deleteMessage (st : Store) (userId : Option String) (messageId : Nat) :
    Store × RestResult :=
  match userId with
  | none => (st, .unauthorized "Unauthorized")
  | some uid =>
    match st.messages.find? (fun m => m.id == messageId && m.sender_id == uid) with
    | none => (st, .notFound "Message not found or unauthorized")
    | some _ =>
      ({ st with messages := st.messages.filter (fun m => !(m.id == messageId)) },
        .ok "success")

/-- `or(and(sender.eq.u,receiver.eq.o),and(sender.eq.o,receiver.eq.u))` —
the conversation filter of REST `getMessages`. -/
def conversationFilter (uid oid : String) (m : MessageRecord) : Bool :=
  (m.sender_id == uid && m.receiver_id == oid) ||
    (m.sender_id == oid && m.receiver_id == uid)

/-- Insertion step of the store's `order by created_at descending`. -/
def insertByCreatedAtDesc (m : MessageRecord) :
    List MessageRecord → List MessageRecord
  | [] => [m]
  | x :: xs =>
    if m.created_at ≤ x.created_at then x :: insertByCreatedAtDesc m xs
    else m :: x :: xs

/-- The store's `order by created_at descending` over the filtered rows. -/
def sortByCreatedAtDesc : List MessageRecord → List MessageRecord
  | [] => []
  | x :: xs => insertByCreatedAtDesc x (sortByCreatedAtDesc xs)

/-- The page fetched by REST `getMessages`: conversation rows, newest
first, `range(offset, offset + limit - 1)` with
`offset = (page - 1) * limit`. -/
def fetchedPage (st : Store) (uid oid : String) (page limit : Nat) :
    List MessageRecord :=
  ((sortByCreatedAtDesc (st.messages.filter (conversationFilter uid oid))).drop
      ((page - 1) * limit)).take limit

/-- REST `getMessages`: fetch the page, then stamp `read_at` on the ids
of the fetched rows addressed to the caller that have no read time yet
(`update(\x7bread_at: now\x7d).in('id', unreadMessageIds)`, issued only when
that id list is non-empty), and answer the page oldest-first together
with a has-more flag. -/
def getMessages (st : Store) (userId : Option String) (otherUserId : String)
    (page limit : Nat) (now : Nat) : Store × RestResult :=
  match userId with
  | none => (st, .unauthorized "Unauthorized")
  | some uid =>
    let fetched := fetchedPage st uid otherUserId page limit
    let unreadIds :=
      (fetched.filter (fun m => m.receiver_id == uid && m.read_at == none)).map
        (fun m => m.id)
    let st' :=
      if unreadIds.isEmpty then st
      else
        { st with
          messages := st.messages.map (fun m =>
            if unreadIds.contains m.id then { m with read_at := some now } else m) }
    (st', .messagesPage fetched.reverse (fetched.length == limit))

/-- The in-memory `requests` map of `createRateLimit`: insertion-ordered
entries of ip and recorded timestamps (a JS `Map`). -/
abbrev RequestsMap := List (String × List Int)

def mapGet (m : RequestsMap) (k : String) : Option (List Int) :=
  (m.find? (fun e => e.1 == k)).map (fun e => e.2)

/-- `requests.set(k, v)`: update in place if the key exists, append
otherwise (JS `Map` keeps insertion order on update). -/
def mapSet (k : String) (v : List Int) : RequestsMap → RequestsMap
  | [] => [(k, v)]
  | e :: rest => if e.1 == k then (k, v) :: rest else e :: mapSet k v rest

/-- The cleaning loop of `createRateLimit`: for every entry keep only
timestamps strictly newer than `windowStart`, deleting entries that
become empty. -/
def cleanRequests (windowStart : Int) (m : RequestsMap) : RequestsMap :=
  (m.map (fun e => (e.1, e.2.filter (fun t => windowStart < t)))).filter
    (fun e => !e.2.isEmpty)

/-- `Math.ceil(windowMs / 1000)` on integral ms. -/
def jsCeilDiv1000 (w : Int) : Int := -((-w).ediv 1000)

inductive RateDecision where
  | allowed
  | rejected (status : Nat) (retryAfter : Int)
deriving DecidableEq

/-- One invocation of the middleware returned by
`createRateLimit(windowMs, maxRequests)` for a request from `ip` at time
`now`: clean all entries against `windowStart = now - windowMs`; if the
ip's surviving timestamps already number at least `maxRequests`, answer
429 without recording the request; otherwise record `now` and pass the
request through. -/
def rateLimitStep (windowMs : Int) (maxRequests : Nat) (m : RequestsMap)
    (ip : String) (now : Int) : RequestsMap × RateDecision :=
  let windowStart := now - windowMs
  let cleaned := cleanRequests windowStart m
  let userRequests := (mapGet cleaned ip).getD []
  if maxRequests ≤ userRequests.length then
    (cleaned, .rejected 429 (jsCeilDiv1000 windowMs))
  else
    (mapSet ip (userRequests ++ [now]) cleaned, .allowed)

/-- A sequence of requests through one `createRateLimit` middleware. -/
def runRequests (windowMs : Int) (maxRequests : Nat) :
    RequestsMap → List (String × Int) → RequestsMap × List RateDecision
  | m, [] => (m, [])
  | m, (ip, t) :: rest =>
    let r := rateLimitStep windowMs maxRequests m ip t
    let rr := runRequests windowMs maxRequests r.1 rest
    (rr.1, r.2 :: rr.2)

/-- Reference model for claim C10, following the claim's words: the
decision for each request depends only on the previously admitted
requests of the same ip inside the trailing window; rejected requests
are never recorded.  `hist` accumulates every admitted request time. -/
def admittedHistoryRun (windowMs : Int) (maxRequests : Nat)
    (hist : String → List Int) : List (String × Int) → List RateDecision
  | [] => []
  | (ip, t) :: rest =>
    let recent := (hist ip).filter (fun x => t - windowMs < x)
    if maxRequests ≤ recent.length then
      .rejected 429 (jsCeilDiv1000 windowMs) :: admittedHistoryRun windowMs maxRequests hist rest
    else
      .allowed ::
        admittedHistoryRun windowMs maxRequests
          (fun k => if k == ip then hist k ++ [t] else hist k) rest

/-- The rooms a connection of user `s` can ever occupy: its personal room
joined at connect time, and conversation rooms joined on request. -/
def ConnOfUser (s : String) (c : Conn) : Prop :=
  c.userId = s ∧
    ∀ room ∈ c.rooms, room = "user:" ++ s ∨ ∃ k, room = "conversation:" ++ k

/-- Fixture: two stored users. -/
def fixU1 : UserRecord := ⟨"u1", "alice", "Alice", none, false⟩

def fixU2 : UserRecord := ⟨"u2", "bob", "Bob", none, false⟩

def fixStore : Store := ⟨[fixU1, fixU2], []⟩

/-- Fixture: the row the relay insert produces for a "u1" to "u2" hello. -/
def fixRow : MessageRecord := ⟨1, "u1", "u2", "hello", none, 5, none⟩

def fixPm : PersistedMessage := ⟨fixRow, ⟨"u1", "alice", "Alice", none⟩⟩

def fixStoreAfter : Store := ⟨[fixU1, fixU2], [fixRow]⟩

/-- Fixture: a store holding one message from "u1" to "u2". -/
def fixStoreMsg : Store := ⟨[fixU1, fixU2], [⟨1, "u1", "u2", "hi", none, 0, none⟩]⟩

/-- Fixture: a four-message store for the read-stamping frame claim. -/
def fixStoreConv : Store :=
  ⟨[fixU1, fixU2],
    [⟨1, "u1", "u2", "a", none, 1, none⟩, ⟨2, "u2", "u1", "b", none, 2, none⟩,
     ⟨3, "u1", "u2", "c", none, 3, none⟩, ⟨4, "u2", "u9", "d", none, 4, none⟩]⟩

theorem jsStrLe_total (a b : List Char) : jsStrLe a b = true ∨ jsStrLe b a = true := by
  induction a generalizing b with
  | nil => left; rfl
  | cons x xs ih =>
    cases b with
    | nil => right; rfl
    | cons y ys =>
      rcases Nat.lt_trichotomy x.toNat y.toNat with h | h | h
      · left; simp [jsStrLe, h]
      · rcases ih ys with h2 | h2
        · left; simp [jsStrLe, h, h2]
        · right; simp [jsStrLe, h.symm, h2]
      · right; simp [jsStrLe, h]

theorem jsStrLe_antisymm (a b : List Char) (h1 : jsStrLe a b = true)
    (h2 : jsStrLe b a = true) : a = b := by
  induction a generalizing b with
  | nil =>
    cases b with
    | nil => rfl
    | cons y ys => simp [jsStrLe] at h2
  | cons x xs ih =>
    cases b with
    | nil => simp [jsStrLe] at h1
    | cons y ys =>
      rcases Nat.lt_trichotomy x.toNat y.toNat with h | h | h
      · simp [jsStrLe, h, Nat.lt_asymm h] at h2
      · have hxy : x = y := Char.eq_of_val_eq (UInt32.ext h)
        subst hxy
        simp [jsStrLe, Nat.lt_irrefl] at h1 h2
        rw [ih ys h1 h2]
      · simp [jsStrLe, h, Nat.lt_asymm h] at h1

theorem conversationId_comm (a b : String) : conversationId a b = conversationId b a := by
  unfold conversationId sortPair
  by_cases h1 : jsStrLe a.data b.data
  · by_cases h2 : jsStrLe b.data a.data
    · have hd : a.data = b.data := jsStrLe_antisymm _ _ h1 h2
      have hab : a = b := by cases a; cases b; exact congrArg String.mk hd
      simp [hab]
    · simp [h1, h2]
  · by_cases h2 : jsStrLe b.data a.data
    · simp [h1, h2]
    · rcases jsStrLe_total a.data b.data with h | h
      · exact absurd h h1
      · exact absurd h h2

/-- C2: the canonical conversation key is symmetric — `key(a,b) = key(b,a)`
for all identity strings — and the room a connection joins on
`join_conversation` is the room the `send_message` broadcast targets for
the same unordered pair, whichever side computes it. -/
theorem canonical_key_symmetric (a b : String) :
    conversationId a b = conversationId b a ∧
    joinConversationRoom a b = sendMessageRoom a b ∧
    joinConversationRoom b a = sendMessageRoom a b := by
  refine ⟨conversationId_comm a b, rfl, ?_⟩
  unfold joinConversationRoom sendMessageRoom
  rw [conversationId_comm b a]

/-- C1: when the `send_message` store write succeeds, the relay emits
exactly one `new_message` event (carrying the full persisted record with
resolved sender profile) to the conversation room with the canonical key
of (sender, receiver), and exactly one `message_notification` event
(sender id plus the message) to the receiver's personal room; a
connection of the receiver that never joined any conversation room (it
only ran the `connection` handler) is delivered that notification. -/
theorem send_message_success_broadcasts (st st' : Store) (s r text : String)
    (img : Option String) (now mid : Nat) (pm : PersistedMessage)
    (_hsr : s ≠ r)
    (hok : relayInsertMessage st s r text img now mid = .ok (st', pm)) :
    (relaySendMessage st s r text img now mid).2 =
      [⟨.group (sendMessageRoom s r), "new_message", .newMessage pm⟩,
       ⟨.group ("user:" ++ r), "message_notification", .messageNotification s pm⟩] ∧
    ((relaySendMessage st s r text img now mid).2.filter
        (fun e => e.event == "new_message")).length = 1 ∧
    ((relaySendMessage st s r text img now mid).2.filter
        (fun e => e.event == "message_notification")).length = 1 ∧
    (relaySendMessage st s r text img now mid).1 = st' ∧
    (∀ senderSid rsid : Nat,
      deliveredTo senderSid (connect rsid r)
        ⟨.group ("user:" ++ r), "message_notification", .messageNotification s pm⟩
        = true) := by
  unfold relaySendMessage
  rw [hok]
  refine ⟨rfl, by simp, by simp, rfl, ?_⟩
  intro senderSid rsid
  simp [deliveredTo, connect]

/-- C1 witness: a concrete successful send from "u1" to "u2". -/
theorem send_message_success_broadcasts_witness :
    ("u1" : String) ≠ "u2" ∧
    relayInsertMessage fixStore "u1" "u2" "hello" none 5 1 =
      .ok (fixStoreAfter, fixPm) ∧
    (relaySendMessage fixStore "u1" "u2" "hello" none 5 1).2 =
      [⟨.group (sendMessageRoom "u1" "u2"), "new_message", .newMessage fixPm⟩,
       ⟨.group ("user:" ++ "u2"), "message_notification",
         .messageNotification "u1" fixPm⟩] :=
  ⟨by decide, rfl,
    (send_message_success_broadcasts fixStore fixStoreAfter "u1" "u2" "hello" none 5 1
      fixPm (by decide) rfl).1⟩

/-- C3: when the `send_message` store write fails, the relay emits exactly
one `message_error` event, addressed to the originating sender socket
only, performs zero `new_message` and zero `message_notification`
broadcasts, and leaves the store unchanged; the handler returns normally
(the model is a total function on every store outcome). -/
theorem send_message_failure_isolated (st : Store) (s r text : String)
    (img : Option String) (now mid : Nat) (e : String)
    (herr : relayInsertMessage st s r text img now mid = .error e) :
    (relaySendMessage st s r text img now mid).2 =
      [⟨.senderSocket, "message_error", .messageError "Failed to send message"⟩] ∧
    (relaySendMessage st s r text img now mid).1 = st ∧
    ((relaySendMessage st s r text img now mid).2.filter
        (fun em => em.event == "new_message")).length = 0 ∧
    ((relaySendMessage st s r text img now mid).2.filter
        (fun em => em.event == "message_notification")).length = 0 ∧
    (∀ (senderSid : Nat) (c : Conn),
      deliveredTo senderSid c
          ⟨.senderSocket, "message_error", .messageError "Failed to send message"⟩
        = (c.sid == senderSid)) := by
  unfold relaySendMessage
  rw [herr]
  exact ⟨rfl, rfl, by simp, by simp, fun senderSid c => rfl⟩

/-- C3 witness: the insert fails against a store with no users. -/
theorem send_message_failure_isolated_witness :
    relayInsertMessage ⟨[], []⟩ "u1" "u2" "x" none 0 0 = .error "insert failed" ∧
    (relaySendMessage ⟨[], []⟩ "u1" "u2" "x" none 0 0).2 =
      [⟨.senderSocket, "message_error", .messageError "Failed to send message"⟩] ∧
    (relaySendMessage ⟨[], []⟩ "u1" "u2" "x" none 0 0).1 = (⟨[], []⟩ : Store) :=
  ⟨rfl,
    (send_message_failure_isolated ⟨[], []⟩ "u1" "u2" "x" none 0 0 "insert failed"
      rfl).1,
    (send_message_failure_isolated ⟨[], []⟩ "u1" "u2" "x" none 0 0 "insert failed"
      rfl).2.1⟩

/-- C4: a handshake whose credential is missing, fails verification, or
resolves to no stored identity is rejected with the authentication error
before any room enrollment: no connection is created, the server's
connection list is unchanged, the rejected socket is never among the
recipients of any emission, and an inbound event from its socket id
reaches no handler and forwards nothing. -/
theorem rejected_connection_isolated (tok : HandshakeToken) (st : Store)
    (conns : List Conn) (sid : Nat)
    (hbad : badHandshake tok st = true)
    (hfresh : ∀ c ∈ conns, c.sid ≠ sid) :
    verifyConnection tok st = .error "Authentication error" ∧
    acceptConnection tok st sid = none ∧
    serverAfterHandshake conns tok st sid = conns ∧
    (∀ (senderSid : Nat) (em : Emission),
      ∀ c ∈ recipients (serverAfterHandshake conns tok st sid) senderSid em,
        c.sid ≠ sid) ∧
    (∀ (st2 : Store) (ev : InboundEvent),
      dispatchEvent st2 (serverAfterHandshake conns tok st sid) sid ev =
        (st2, conns, [])) := by
  have hverify : verifyConnection tok st = .error "Authentication error" := by
    cases tok with
    | missing => rfl
    | invalid => rfl
    | valid uid =>
      unfold badHandshake at hbad
      rw [Option.isNone_iff_eq_none] at hbad
      simp [verifyConnection, hbad]
  have haccept : acceptConnection tok st sid = none := by
    unfold acceptConnection; rw [hverify]
  have hafter : serverAfterHandshake conns tok st sid = conns := by
    unfold serverAfterHandshake; rw [haccept]
  refine ⟨hverify, haccept, hafter, ?_, ?_⟩
  · intro senderSid em c hc
    rw [hafter] at hc
    exact hfresh c (List.mem_of_mem_filter hc)
  · intro st2 ev
    rw [hafter]
    unfold dispatchEvent
    have hfind : conns.find? (fun c => c.sid == sid) = none := by
      apply List.find?_eq_none.mpr
      intro c hc
      simpa using hfresh c hc
    rw [hfind]

/-- C4 witness: a token-less handshake against a server with one live
connection and a fresh socket id. -/
theorem rejected_connection_isolated_witness :
    badHandshake .missing fixStore = true ∧
    (∀ c ∈ [connect 1 "u1"], c.sid ≠ 7) ∧
    serverAfterHandshake [connect 1 "u1"] .missing fixStore 7 = [connect 1 "u1"] ∧
    dispatchEvent fixStore [connect 1 "u1"] 7 (.typingStart "u2") =
      (fixStore, [connect 1 "u1"], []) :=
  ⟨rfl, by decide,
    (rejected_connection_isolated .missing fixStore [connect 1 "u1"] 7 rfl
      (by decide)).2.2.1,
    (rejected_connection_isolated .missing fixStore [connect 1 "u1"] 7 rfl
      (by decide)).2.2.2.2 fixStore (.typingStart "u2")⟩

theorem append_right_inj (p a b : String) (h : p ++ a = p ++ b) : a = b := by
  have hd : p.data ++ a.data = p.data ++ b.data := by
    have := congrArg String.data h
    simpa [String.data_append] using this
  have := List.append_cancel_left hd
  cases a; cases b; exact congrArg String.mk this

theorem conv_room_ne_user_room (k r : String) :
    "conversation:" ++ k ≠ "user:" ++ r := by
  intro h
  have hd : ("conversation:" ++ k).data = ("user:" ++ r).data := congrArg String.data h
  rw [String.data_append, String.data_append] at hd
  have h2 : 'c' :: ("onversation:".data ++ k.data) = 'u' :: ("ser:".data ++ r.data) := hd
  simp at h2

theorem connOfUser_connect (sid : Nat) (s : String) : ConnOfUser s (connect sid s) := by
  refine ⟨rfl, ?_⟩
  intro room hroom
  simp [connect] at hroom
  left; exact hroom

theorem connOfUser_join (s o : String) (c : Conn) (h : ConnOfUser s c) :
    ConnOfUser s (joinConversation c o) := by
  obtain ⟨h1, h2⟩ := h
  refine ⟨h1, ?_⟩
  intro room hroom
  simp [joinConversation] at hroom
  rcases hroom with h | h
  · exact h2 room h
  · right
    exact ⟨conversationId c.userId o, by rw [h]; rfl⟩

/-- C6: a `typing_start` then a `typing_stop` from a connection of `s`
naming `r` produce exactly two `user_typing` events carrying `s` with
booleans `true` then `false`, both addressed to `r`'s personal room
minus the emitting socket; every other connection of `r` is delivered
both, and no connection of `s` (whose rooms are its personal room and
conversation rooms) is ever delivered either. -/
theorem typing_start_stop_events (st : Store) (cs : Conn) (s r : String)
    (hcs : cs.userId = s) (hsr : s ≠ r) :
    (handleEvent st cs (.typingStart r)).2.2 ++ (handleEvent st cs (.typingStop r)).2.2 =
      [⟨.groupExceptSender ("user:" ++ r), "user_typing", .userTyping s true⟩,
       ⟨.groupExceptSender ("user:" ++ r), "user_typing", .userTyping s false⟩] ∧
    (handleEvent st cs (.typingStart r)).1 = st ∧
    (handleEvent st cs (.typingStart r)).2.1 = cs ∧
    (∀ em ∈ (handleEvent st cs (.typingStart r)).2.2 ++
        (handleEvent st cs (.typingStop r)).2.2,
      ∀ rsid : Nat, rsid ≠ cs.sid → deliveredTo cs.sid (connect rsid r) em = true) ∧
    (∀ em ∈ (handleEvent st cs (.typingStart r)).2.2 ++
        (handleEvent st cs (.typingStop r)).2.2,
      ∀ cd : Conn, ConnOfUser s cd → deliveredTo cs.sid cd em = false) := by
  subst hcs
  have hcont : ∀ cd : Conn, ConnOfUser cs.userId cd →
      cd.rooms.contains ("user:" ++ r) = false := by
    intro cd hcd
    by_contra hne
    rw [Bool.not_eq_false] at hne
    have hmem : ("user:" ++ r) ∈ cd.rooms := List.mem_of_elem_eq_true hne
    rcases hcd.2 _ hmem with h | ⟨k, h⟩
    · exact hsr (append_right_inj "user:" _ _ h).symm
    · exact conv_room_ne_user_room k r h.symm
  refine ⟨rfl, rfl, rfl, ?_, ?_⟩
  · intro em hem rsid hrs
    simp [handleEvent, typingStartEmissions, typingStopEmissions] at hem
    rcases hem with h | h <;> subst h <;>
      simp [deliveredTo, connect, hrs]
  · intro em hem cd hcd
    simp [handleEvent, typingStartEmissions, typingStopEmissions] at hem
    rcases hem with h | h <;> subst h
    all_goals
      · show (cd.rooms.contains ("user:" ++ r) && (cd.sid != cs.sid)) = false
        rw [hcont cd hcd]
        exact Bool.false_and _

/-- C6 witness: connection 1 of "u1" typing at "u2". -/
theorem typing_start_stop_events_witness :
    (connect 1 "u1").userId = "u1" ∧ ("u1" : String) ≠ "u2" ∧
    (handleEvent fixStore (connect 1 "u1") (.typingStart "u2")).2.2 ++
        (handleEvent fixStore (connect 1 "u1") (.typingStop "u2")).2.2 =
      [⟨.groupExceptSender ("user:" ++ "u2"), "user_typing", .userTyping "u1" true⟩,
       ⟨.groupExceptSender ("user:" ++ "u2"), "user_typing", .userTyping "u1" false⟩] :=
  ⟨rfl, by decide,
    (typing_start_stop_events fixStore (connect 1 "u1") "u1" "u2" rfl (by decide)).1⟩

/-- C5 (failing input): neither message path compares sender and
receiver, and the backend-embedded schema has no
`sender_id != receiver_id` check, so an authenticated "u1" naming
receiver "u1" passes validation (the receiver-exists check resolves
"u1"), is persisted with HTTP 201 by the REST path, and is likewise
persisted and broadcast by the relay path — a stored message row with
`sender_id = receiver_id`, contradicting the spec's invariant (which the
standalone SQL schema file does declare as a check constraint). -/
theorem self_message_persisted :
    (sendMessage fixStore (some "u1") (some "u1") (some "hi") none 10 1).2 =
      .createdMessage ⟨1, "u1", "u1", "hi", none, 10, none⟩ ∧
    (sendMessage fixStore (some "u1") (some "u1") (some "hi") none 10 1).1.messages =
      [⟨1, "u1", "u1", "hi", none, 10, none⟩] ∧
    (⟨1, "u1", "u1", "hi", none, 10, none⟩ : MessageRecord).sender_id =
      (⟨1, "u1", "u1", "hi", none, 10, none⟩ : MessageRecord).receiver_id ∧
    (relaySendMessage fixStore "u1" "u1" "hi" none 10 1).1.messages =
      [⟨1, "u1", "u1", "hi", none, 10, none⟩] ∧
    (relaySendMessage fixStore "u1" "u1" "hi" none 10 1).2.length = 2 := by
  refine ⟨rfl, rfl, rfl, rfl, rfl⟩

/-- C7 counterexample: "u2" asks to delete message 1, which exists and
was sent by "u1".  The request is refused, but with the not-found
outcome (HTTP 404, `Message not found or unauthorized`) — no
authorization error (HTTP 403) is ever produced by this handler — while
the store is left unchanged. -/
theorem delete_by_non_sender_is_not_found :
    (deleteMessage fixStoreMsg (some "u2") 1).2 =
      .notFound "Message not found or unauthorized" ∧
    (deleteMessage fixStoreMsg (some "u2") 1).2.status = 404 ∧
    (deleteMessage fixStoreMsg (some "u2") 1).2.status ≠ 403 ∧
    (deleteMessage fixStoreMsg (some "u2") 1).1 = fixStoreMsg ∧
    (∃ m ∈ fixStoreMsg.messages, m.id = 1 ∧ m.sender_id ≠ "u2") := by
  refine ⟨rfl, rfl, by decide, rfl, ?_⟩
  exact ⟨⟨1, "u1", "u2", "hi", none, 0, none⟩, by decide, rfl, by decide⟩

/-- C7 (amended): a message is removed exactly when the requester is its
sender; a delete request by any other authenticated user (or for an
absent id) leaves the store unchanged and fails with the not-found error
`Message not found or unauthorized` (HTTP 404) — not with an
authorization error. -/
theorem delete_message_sender_only (st : Store) (u : String) (mid : Nat) :
    ((∃ m ∈ st.messages, m.id = mid ∧ m.sender_id = u) →
      (deleteMessage st (some u) mid).1.messages =
        st.messages.filter (fun m => !(m.id == mid)) ∧
      (deleteMessage st (some u) mid).1.users = st.users ∧
      (deleteMessage st (some u) mid).2 = .ok "success") ∧
    ((∀ m ∈ st.messages, ¬(m.id = mid ∧ m.sender_id = u)) →
      (deleteMessage st (some u) mid).1 = st ∧
      (deleteMessage st (some u) mid).2 =
        .notFound "Message not found or unauthorized") := by
  simp only [deleteMessage]
  cases hfind : st.messages.find? (fun m => m.id == mid && m.sender_id == u) with
  | none =>
    rw [List.find?_eq_none] at hfind
    constructor
    · rintro ⟨m, hm, h1, h2⟩
      exact absurd (by simp [h1, h2]) (hfind m hm)
    · intro _
      exact ⟨rfl, rfl⟩
  | some m =>
    constructor
    · intro _
      exact ⟨rfl, rfl, rfl⟩
    · intro hnone
      have hmem := List.mem_of_find?_eq_some hfind
      have hpred := List.find?_some hfind
      simp at hpred
      exact absurd hpred (hnone m hmem)

/-- C7 witness: the sender "u1" deletes message 1; the non-sender branch
is exercised by the counterexample above. -/
theorem delete_message_sender_only_witness :
    (∃ m ∈ fixStoreMsg.messages, m.id = 1 ∧ m.sender_id = "u1") ∧
    (deleteMessage fixStoreMsg (some "u1") 1).1.messages =
      fixStoreMsg.messages.filter (fun m => !(m.id == 1)) ∧
    (deleteMessage fixStoreMsg (some "u1") 1).2 = .ok "success" :=
  ⟨⟨⟨1, "u1", "u2", "hi", none, 0, none⟩, by decide, rfl, rfl⟩,
    ((delete_message_sender_only fixStoreMsg "u1" 1).1
      ⟨⟨1, "u1", "u2", "hi", none, 0, none⟩, by decide, rfl, rfl⟩).1,
    ((delete_message_sender_only fixStoreMsg "u1" 1).1
      ⟨⟨1, "u1", "u2", "hi", none, 0, none⟩, by decide, rfl, rfl⟩).2.2⟩

theorem mapGet_cons (e : String × List Int) (rest : RequestsMap) (k : String) :
    mapGet (e :: rest) k = if e.1 == k then some e.2 else mapGet rest k := by
  simp only [mapGet, List.find?]
  cases h : e.1 == k <;> simp [h]

theorem mapGet_eq_none_of_not_mem (m : RequestsMap) (k : String)
    (h : k ∉ m.map Prod.fst) : mapGet m k = none := by
  induction m with
  | nil => rfl
  | cons e rest ih =>
    rw [List.map_cons, List.mem_cons] at h
    push_neg at h
    rw [mapGet_cons, if_neg (by simp [h.1.symm])]
    exact ih h.2

theorem keys_cleanRequests_sublist (ws : Int) (m : RequestsMap) :
    ((cleanRequests ws m).map Prod.fst).Sublist (m.map Prod.fst) := by
  induction m with
  | nil => simp [cleanRequests]
  | cons e rest ih =>
    unfold cleanRequests at ih ⊢
    rw [List.map_cons, List.filter_cons]
    by_cases hp : ((e.2.filter (fun t => ws < t)).isEmpty : Bool)
    · rw [if_neg (by simp [hp])]
      exact List.sublist_cons_of_sublist _ ih
    · rw [if_pos (by simp [hp])]
      rw [List.map_cons]
      exact ih.cons₂ _

theorem mapGet_cleanRequests (ws : Int) (m : RequestsMap) (k : String)
    (hwf : (m.map Prod.fst).Nodup) :
    (mapGet (cleanRequests ws m) k).getD [] =
      ((mapGet m k).getD []).filter (fun t => ws < t) := by
  induction m with
  | nil => rfl
  | cons e rest ih =>
    rw [List.map_cons, List.nodup_cons] at hwf
    obtain ⟨hk, hwf2⟩ := hwf
    unfold cleanRequests
    rw [List.map_cons, List.filter_cons]
    by_cases hemp : ((e.2.filter (fun t => ws < t)).isEmpty : Bool)
    · rw [if_neg (by simp [hemp])]
      by_cases hek : e.1 == k
      · have hkk : e.1 = k := by simpa using hek
        have hnone : mapGet (cleanRequests ws rest) k = none := by
          apply mapGet_eq_none_of_not_mem
          intro hmem
          exact hk (hkk ▸ (keys_cleanRequests_sublist ws rest).subset hmem)
        unfold cleanRequests at hnone
        rw [hnone, mapGet_cons, if_pos hek]
        have : e.2.filter (fun t => ws < t) = [] := List.isEmpty_iff.mp hemp
        simp [this]
      · rw [mapGet_cons, if_neg hek]
        exact ih hwf2
    · rw [if_pos (by simp [hemp])]
      by_cases hek : e.1 == k
      · rw [mapGet_cons, if_pos hek, mapGet_cons, if_pos hek]
        rfl
      · rw [mapGet_cons, if_neg hek, mapGet_cons, if_neg hek]
        exact ih hwf2

theorem nodup_keys_cleanRequests (ws : Int) (m : RequestsMap)
    (h : (m.map Prod.fst).Nodup) : ((cleanRequests ws m).map Prod.fst).Nodup :=
  h.sublist (keys_cleanRequests_sublist ws m)

theorem mapGet_mapSet_self (k : String) (v : List Int) (m : RequestsMap) :
    mapGet (mapSet k v m) k = some v := by
  induction m with
  | nil => simp [mapSet, mapGet_cons]
  | cons e rest ih =>
    unfold mapSet
    by_cases h : e.1 == k
    · rw [if_pos h, mapGet_cons]
      simp
    · rw [if_neg h, mapGet_cons, if_neg h]
      exact ih

theorem mapGet_mapSet_ne (k : String) (v : List Int) (m : RequestsMap) (q : String)
    (h : q ≠ k) : mapGet (mapSet k v m) q = mapGet m q := by
  induction m with
  | nil => simp [mapSet, mapGet_cons, mapGet, Ne.symm h]
  | cons e rest ih =>
    unfold mapSet
    by_cases he : e.1 == k
    · rw [if_pos he, mapGet_cons, mapGet_cons, if_neg (by simp [Ne.symm h]),
        if_neg (by simpa using (by simpa using he : e.1 = k) ▸ (by simp [Ne.symm h] : ¬(k = q)))]
    · rw [if_neg he, mapGet_cons, mapGet_cons]
      by_cases hq : e.1 == q
      · rw [if_pos hq, if_pos hq]
      · rw [if_neg hq, if_neg hq]
        exact ih

theorem mem_keys_mapSet (k : String) (v : List Int) (m : RequestsMap) (x : String)
    (h : x ∈ (mapSet k v m).map Prod.fst) : x = k ∨ x ∈ m.map Prod.fst := by
  induction m with
  | nil => simp [mapSet] at h; left; exact h
  | cons e rest ih =>
    unfold mapSet at h
    by_cases he : e.1 == k
    · rw [if_pos he] at h
      simp at h
      rcases h with h | h
      · left; exact h
      · right; simp [h]
    · rw [if_neg he] at h
      rw [List.map_cons, List.mem_cons] at h
      rcases h with h | h
      · right; simp [h]
      · rcases ih h with h2 | h2
        · left; exact h2
        · right; simp [h2]

theorem nodup_keys_mapSet (k : String) (v : List Int) (m : RequestsMap)
    (h : (m.map Prod.fst).Nodup) : ((mapSet k v m).map Prod.fst).Nodup := by
  induction m with
  | nil => simp [mapSet]
  | cons e rest ih =>
    rw [List.map_cons, List.nodup_cons] at h
    obtain ⟨h1, h2⟩ := h
    unfold mapSet
    by_cases he : e.1 == k
    · rw [if_pos he, List.map_cons, List.nodup_cons]
      have hek : e.1 = k := by simpa using he
      exact ⟨hek ▸ h1, h2⟩
    · rw [if_neg he, List.map_cons, List.nodup_cons]
      refine ⟨?_, ih h2⟩
      intro hmem
      rcases mem_keys_mapSet k v rest e.1 hmem with h3 | h3
      · exact absurd h3 (by simpa using he)
      · exact h1 h3

theorem filter_window (l : List Int) (a b : Int) (hab : a ≤ b) :
    (l.filter (fun x => a < x)).filter (fun x => b < x) = l.filter (fun x => b < x) := by
  rw [List.filter_filter]
  apply List.filter_congr
  intro x _
  by_cases hx : b < x
  · have hax : a < x := lt_of_le_of_lt hab hx
    simp [hx, hax]
  · simp [hx]

theorem runRequests_eq_admittedHistoryRun_aux (w : Int) (mx : Nat)
    (reqs : List (String × Int)) :
    ∀ (m : RequestsMap) (hist : String → List Int) (t0 : Int),
      (m.map Prod.fst).Nodup →
      List.Sorted (· ≤ ·) (reqs.map Prod.snd) →
      (∀ r ∈ reqs, t0 ≤ r.2) →
      (∀ k, ((mapGet m k).getD []).filter (fun x => t0 - w < x)
          = (hist k).filter (fun x => t0 - w < x)) →
      (runRequests w mx m reqs).2 = admittedHistoryRun w mx hist reqs := by
  induction reqs with
  | nil => intro m hist t0 _ _ _ _; rfl
  | cons req rest ih =>
    obtain ⟨ip, t⟩ := req
    intro m hist t0 hwf hsort hge hagree
    have ht0 : t0 ≤ t := hge (ip, t) (List.mem_cons_self _ _)
    have hww : t0 - w ≤ t - w := sub_le_sub_right ht0 w
    have hclean : ∀ k, (mapGet (cleanRequests (t - w) m) k).getD []
        = ((mapGet m k).getD []).filter (fun x => t - w < x) :=
      fun k => mapGet_cleanRequests _ _ _ hwf
    have hagree_t : ∀ k, ((mapGet m k).getD []).filter (fun x => t - w < x)
        = (hist k).filter (fun x => t - w < x) := by
      intro k
      calc ((mapGet m k).getD []).filter (fun x => t - w < x)
          = (((mapGet m k).getD []).filter (fun x => t0 - w < x)).filter
              (fun x => t - w < x) := (filter_window _ _ _ hww).symm
        _ = ((hist k).filter (fun x => t0 - w < x)).filter (fun x => t - w < x) := by
              rw [hagree k]
        _ = (hist k).filter (fun x => t - w < x) := filter_window _ _ _ hww
    have husr : (mapGet (cleanRequests (t - w) m) ip).getD []
        = (hist ip).filter (fun x => t - w < x) := (hclean ip).trans (hagree_t ip)
    have hwf2 : ((cleanRequests (t - w) m).map Prod.fst).Nodup :=
      nodup_keys_cleanRequests _ _ hwf
    have hsort2 : List.Sorted (· ≤ ·) (rest.map Prod.snd) := hsort.of_cons
    have hge2 : ∀ r ∈ rest, t ≤ r.2 := fun r hr =>
      List.rel_of_sorted_cons hsort r.2 (List.mem_map_of_mem Prod.snd hr)
    have hcleanagree : ∀ k, ((mapGet (cleanRequests (t - w) m) k).getD []).filter
        (fun x => t - w < x) = (hist k).filter (fun x => t - w < x) := by
      intro k
      rw [hclean k, filter_window _ _ _ (le_refl (t - w))]
      exact hagree_t k
    by_cases hcond : mx ≤ ((hist ip).filter (fun x => t - w < x)).length
    · have hstep : rateLimitStep w mx m ip t =
          (cleanRequests (t - w) m, .rejected 429 (jsCeilDiv1000 w)) := by
        simp only [rateLimitStep]
        rw [husr, if_pos hcond]
      show (rateLimitStep w mx m ip t).2 ::
          (runRequests w mx (rateLimitStep w mx m ip t).1 rest).2 = _
      rw [hstep]
      simp only [admittedHistoryRun]
      rw [if_pos hcond]
      exact congrArg _ (ih _ hist t hwf2 hsort2 hge2 hcleanagree)
    · have hstep : rateLimitStep w mx m ip t =
          (mapSet ip (((hist ip).filter (fun x => t - w < x)) ++ [t])
            (cleanRequests (t - w) m), .allowed) := by
        simp only [rateLimitStep]
        rw [husr, if_neg hcond]
      show (rateLimitStep w mx m ip t).2 ::
          (runRequests w mx (rateLimitStep w mx m ip t).1 rest).2 = _
      rw [hstep]
      simp only [admittedHistoryRun]
      rw [if_neg hcond]
      refine congrArg _ (ih _ _ t ?_ hsort2 hge2 ?_)
      · exact nodup_keys_mapSet _ _ _ hwf2
      · intro k
        by_cases hk : k = ip
        · subst hk
          rw [mapGet_mapSet_self]
          show ((((hist k).filter (fun x => t - w < x)) ++ [t]).filter
              (fun x => t - w < x)) = _
          rw [List.filter_append, filter_window _ _ _ (le_refl (t - w))]
          have : (if (k == k) = true then hist k ++ [t] else hist k) = hist k ++ [t] := by
            simp
          rw [this, List.filter_append]
        · rw [mapGet_mapSet_ne _ _ _ _ hk]
          have : (if (k == ip) = true then hist k ++ [t] else hist k) = hist k := by
            simp [hk]
          rw [this]
          exact hcleanagree k

/-- C8: one invocation of the middleware built by
`createRateLimit(windowMs, maxRequests)` rejects with HTTP 429 exactly
when the requesting ip already has at least `maxRequests` recorded
timestamps strictly newer than `now - windowMs`; otherwise it records
the request time and passes the request through. -/
theorem rate_limit_sliding_window (w : Int) (mx : Nat) (m : RequestsMap)
    (ip : String) (now : Int) (hwf : (m.map Prod.fst).Nodup) :
    ((rateLimitStep w mx m ip now).2 = .rejected 429 (jsCeilDiv1000 w) ↔
      mx ≤ (((mapGet m ip).getD []).filter (fun t => now - w < t)).length) ∧
    ((rateLimitStep w mx m ip now).2 = .allowed ↔
      (((mapGet m ip).getD []).filter (fun t => now - w < t)).length < mx) ∧
    (mx ≤ (((mapGet m ip).getD []).filter (fun t => now - w < t)).length →
      (rateLimitStep w mx m ip now).1 = cleanRequests (now - w) m) ∧
    ((((mapGet m ip).getD []).filter (fun t => now - w < t)).length < mx →
      mapGet (rateLimitStep w mx m ip now).1 ip =
        some ((((mapGet m ip).getD []).filter (fun t => now - w < t)) ++ [now])) := by
  have husr := mapGet_cleanRequests (now - w) m ip hwf
  by_cases hcond : mx ≤ (((mapGet m ip).getD []).filter (fun t => now - w < t)).length
  · have hstep : rateLimitStep w mx m ip now =
        (cleanRequests (now - w) m, .rejected 429 (jsCeilDiv1000 w)) := by
      simp only [rateLimitStep]
      rw [husr, if_pos hcond]
    rw [hstep]
    refine ⟨⟨fun _ => hcond, fun _ => rfl⟩,
      ⟨fun h => absurd h (by simp), fun h => absurd hcond (not_le.mpr h)⟩,
      fun _ => rfl, fun h => absurd hcond (not_le.mpr h)⟩
  · have hstep : rateLimitStep w mx m ip now =
        (mapSet ip ((((mapGet m ip).getD []).filter (fun t => now - w < t)) ++ [now])
          (cleanRequests (now - w) m), .allowed) := by
      simp only [rateLimitStep]
      rw [husr, if_neg hcond]
    rw [hstep]
    refine ⟨⟨fun h => absurd h (by simp), fun h => absurd h hcond⟩,
      ⟨fun _ => not_le.mp hcond, fun _ => rfl⟩,
      fun h => absurd h hcond, fun _ => mapGet_mapSet_self _ _ _⟩

/-- C8 witness: window 100 ms, limit 2; the ip has three recorded
timestamps inside the window at time 100, so the request is rejected. -/
theorem rate_limit_sliding_window_witness :
    ((([(("1.2.3.4" : String), [(10 : Int), 50, 90])] : RequestsMap).map
        Prod.fst).Nodup) ∧
    (rateLimitStep 100 2 [("1.2.3.4", [10, 50, 90])] "1.2.3.4" 100).2 =
      .rejected 429 (jsCeilDiv1000 100) :=
  ⟨by decide,
    (rate_limit_sliding_window 100 2 [("1.2.3.4", [10, 50, 90])] "1.2.3.4" 100
      (by decide)).1.mpr (by decide)⟩

/-- C10: a request rejected with 429 is not recorded: over any
chronologically ordered request sequence the middleware's decisions
coincide with those of the reference process that keeps only admitted
request times per ip and admits a request exactly when fewer than
`maxRequests` previously admitted same-ip times lie inside the trailing
window; moreover a rejection leaves the map exactly at its cleaned
value, recording nothing. -/
theorem rate_limit_rejected_not_recorded (w : Int) (mx : Nat)
    (reqs : List (String × Int))
    (hsort : List.Sorted (· ≤ ·) (reqs.map Prod.snd)) :
    (runRequests w mx [] reqs).2 = admittedHistoryRun w mx (fun _ => []) reqs ∧
    (∀ (m : RequestsMap) (ip : String) (now : Int),
      mx ≤ ((mapGet (cleanRequests (now - w) m) ip).getD []).length →
      (rateLimitStep w mx m ip now).1 = cleanRequests (now - w) m) := by
  constructor
  · cases reqs with
    | nil => rfl
    | cons req rest =>
      apply runRequests_eq_admittedHistoryRun_aux w mx (req :: rest) []
        (fun _ => []) req.2
      · simp
      · exact hsort
      · intro r hr
        rcases List.mem_cons.mp hr with h | h
        · rw [h]
        · exact List.rel_of_sorted_cons hsort r.2 (List.mem_map_of_mem Prod.snd h)
      · intro k
        rfl
  · intro m ip now h
    simp only [rateLimitStep]
    rw [if_pos h]

/-- C10 witness: three requests from one ip with window 10 and limit 1:
admitted, rejected, admitted again once the window has passed. -/
theorem rate_limit_rejected_not_recorded_witness :
    List.Sorted (· ≤ ·)
      (([(("a" : String), (0 : Int)), ("a", 1), ("a", 20)].map Prod.snd)) ∧
    (runRequests 10 1 [] [("a", 0), ("a", 1), ("a", 20)]).2 =
      admittedHistoryRun 10 1 (fun _ => []) [("a", 0), ("a", 1), ("a", 20)] :=
  ⟨by decide,
    (rate_limit_rejected_not_recorded 10 1 [("a", 0), ("a", 1), ("a", 20)]
      (by decide)).1⟩

theorem insertByCreatedAtDesc_perm (m : MessageRecord) (l : List MessageRecord) :
    (insertByCreatedAtDesc m l).Perm (m :: l) := by
  induction l with
  | nil => exact List.Perm.refl _
  | cons x xs ih =>
    unfold insertByCreatedAtDesc
    by_cases h : m.created_at ≤ x.created_at
    · rw [if_pos h]
      exact (ih.cons x).trans (List.Perm.swap m x xs)
    · rw [if_neg h]

theorem sortByCreatedAtDesc_perm (l : List MessageRecord) :
    (sortByCreatedAtDesc l).Perm l := by
  induction l with
  | nil => exact List.Perm.refl _
  | cons x xs ih =>
    unfold sortByCreatedAtDesc
    exact (insertByCreatedAtDesc_perm x _).trans (ih.cons x)

theorem mem_of_mem_fetchedPage (st : Store) (uid oid : String) (page limit : Nat)
    (x : MessageRecord) (hx : x ∈ fetchedPage st uid oid page limit) :
    x ∈ st.messages := by
  unfold fetchedPage at hx
  have h1 := List.mem_of_mem_take hx
  have h2 := List.mem_of_mem_drop h1
  have h3 := (sortByCreatedAtDesc_perm _).subset h2
  exact List.mem_of_mem_filter h3

theorem stamp_by_id_eq_stamp_by_mem (msgs fetched : List MessageRecord)
    (uid : String) (now : Nat)
    (hid : (msgs.map MessageRecord.id).Nodup)
    (hsub : ∀ x ∈ fetched, x ∈ msgs) :
    msgs.map (fun m =>
      if ((fetched.filter (fun m2 => m2.receiver_id == uid && m2.read_at == none)).map
          (fun m2 => m2.id)).contains m.id
      then { m with read_at := some now } else m) =
    msgs.map (fun m =>
      if m ∈ fetched ∧ m.receiver_id = uid ∧ m.read_at = none
      then { m with read_at := some now } else m) := by
  apply List.map_congr_left
  intro m hm
  by_cases hcond : m ∈ fetched ∧ m.receiver_id = uid ∧ m.read_at = none
  · have hc : (((fetched.filter
        (fun m2 => m2.receiver_id == uid && m2.read_at == none)).map
        (fun m2 => m2.id)).contains m.id) = true := by
      apply List.elem_eq_true_of_mem
      apply List.mem_map_of_mem
      rw [List.mem_filter]
      exact ⟨hcond.1, by simp [hcond.2.1, hcond.2.2]⟩
    rw [if_pos hc, if_pos hcond]
  · have hc : ¬((((fetched.filter
        (fun m2 => m2.receiver_id == uid && m2.read_at == none)).map
        (fun m2 => m2.id)).contains m.id) = true) := by
      intro hc
      have hmm := List.mem_of_elem_eq_true hc
      rw [List.mem_map] at hmm
      obtain ⟨m2, hm2, hid2⟩ := hmm
      rw [List.mem_filter] at hm2
      obtain ⟨hm2f, hcond2⟩ := hm2
      have hm2mem : m2 ∈ msgs := hsub m2 hm2f
      have hmeq : m2 = m := List.inj_on_of_nodup_map hid hm2mem hm hid2
      subst hmeq
      rw [Bool.and_eq_true, beq_iff_eq, beq_iff_eq] at hcond2
      exact hcond ⟨hm2f, hcond2.1, hcond2.2⟩
    rw [if_neg hc, if_neg hcond]

theorem stamp_by_mem_empty (msgs fetched : List MessageRecord) (uid : String)
    (now : Nat)
    (hemp : fetched.filter (fun m2 => m2.receiver_id == uid && m2.read_at == none)
      = []) :
    msgs.map (fun m =>
      if m ∈ fetched ∧ m.receiver_id = uid ∧ m.read_at = none
      then { m with read_at := some now } else m) = msgs := by
  have hall : ∀ m ∈ msgs,
      (if m ∈ fetched ∧ m.receiver_id = uid ∧ m.read_at = none
        then { m with read_at := some now } else m) = id m := by
    intro m hm
    rw [if_neg]
    · rfl
    rintro ⟨h1, h2, h3⟩
    have hmem : m ∈ fetched.filter
        (fun m2 => m2.receiver_id == uid && m2.read_at == none) := by
      rw [List.mem_filter]
      exact ⟨h1, by simp [h2, h3]⟩
    rw [hemp] at hmem
    exact absurd hmem (List.not_mem_nil m)
  rw [List.map_congr_left hall, List.map_id]

/-- C9: fetching the message history between the caller and another user
mutates the store in exactly one way: every message of the fetched page
whose receiver is the caller and whose read time is unset gets its read
time stamped with the current time; no other field and no message
outside the page changes, the users table is untouched, and the response
is the page oldest-first with its has-more flag. -/
theorem get_messages_read_stamp_frame (st : Store) (uid oid : String)
    (page limit now : Nat)
    (hid : (st.messages.map MessageRecord.id).Nodup) :
    (getMessages st (some uid) oid page limit now).1.users = st.users ∧
    (getMessages st (some uid) oid page limit now).1.messages =
      st.messages.map (fun m =>
        if m ∈ fetchedPage st uid oid page limit ∧ m.receiver_id = uid ∧
            m.read_at = none
        then { m with read_at := some now } else m) ∧
    (getMessages st (some uid) oid page limit now).2 =
      .messagesPage (fetchedPage st uid oid page limit).reverse
        ((fetchedPage st uid oid page limit).length == limit) := by
  simp only [getMessages]
  by_cases hemp : ((((fetchedPage st uid oid page limit).filter
      (fun m => m.receiver_id == uid && m.read_at == none)).map
      (fun m => m.id)).isEmpty : Bool)
  · rw [if_pos hemp]
    have hfil : (fetchedPage st uid oid page limit).filter
        (fun m => m.receiver_id == uid && m.read_at == none) = [] :=
      List.map_eq_nil_iff.mp (List.isEmpty_iff.mp hemp)
    refine ⟨by trivial, ?_, by trivial⟩
    exact (stamp_by_mem_empty _ _ _ _ hfil).symm
  · rw [if_neg hemp]
    refine ⟨by trivial, ?_, by trivial⟩
    exact stamp_by_id_eq_stamp_by_mem st.messages _ uid now hid
      (fun x hx => mem_of_mem_fetchedPage st uid oid page limit x hx)

/-- C9 witness: the four-message fixture; "u2" fetches the conversation
with "u1" and the two unread messages addressed to "u2" get stamped. -/
theorem get_messages_read_stamp_frame_witness :
    ((fixStoreConv.messages.map MessageRecord.id).Nodup) ∧
    (getMessages fixStoreConv (some "u2") "u1" 1 50 100).1.messages =
      fixStoreConv.messages.map (fun m =>
        if m ∈ fetchedPage fixStoreConv "u2" "u1" 1 50 ∧ m.receiver_id = "u2" ∧
            m.read_at = none
        then { m with read_at := some 100 } else m) :=
  ⟨by decide,
    (get_messages_read_stamp_frame fixStoreConv "u2" "u1" 1 50 100 (by decide)).2.1⟩

end Plantspace
